import Mathlib

/-!
Shallow embedding of the streaming audio-container merge engine and the
text chunkers of the repository (source files `修复合并工具.py`,
`合并音频块.py`, `快速合并工具.py`, `txt_to_wav_large_file.py`,
`txt_to_mp3_advanced.py`).

Modelling conventions:
* a Python string is a sequence of code points, modelled as `List Char`;
* a byte is a `Nat` in `0..255`; a file's content is a `List Nat`;
* a directory is a `List (FileName × ChunkData)` pairing each filename
  with the result of parsing that file with Python's `wave` module
  (`ChunkData.ok params pcm`, or `ChunkData.corrupt` when `wave.open`
  raises);
* console interaction and progress printing are dropped; the per-chunk
  skip messages printed by the source are modelled as the `skipped`
  accumulator, and a fatal `print` + early `return` is modelled as an
  `Except.error` result.
-/

namespace AudioMerge

/-- A Python string (sequence of code points). -/
abbrev FileName := List Char

/-- Python `s.split(sep)` for a single-character separator `sep`:
non-overlapping splits, left to right; `''.split(sep) == ['']`. -/
def splitOnCh (sep : Char) : List Char → List (List Char)
  | [] => [[]]
  | c :: rest =>
    if c = sep then [] :: splitOnCh sep rest
    else
      match splitOnCh sep rest with
      | [] => [[c]]
      | h :: t => (c :: h) :: t

/-- Python `int(s)` on a plain decimal-digit string; `none` when Python
would raise `ValueError` (empty or non-digit input). -/
def pyToNat? (s : List Char) : Option Nat :=
  if s.isEmpty then none
  else if s.all (fun c => c.isDigit) then
    some (s.foldl (fun n c => n * 10 + (c.toNat - 48)) 0)
  else none

/-- `struct.pack('<H', n)`: two little-endian bytes. -/
def u16le (n : Nat) : List Nat := [n % 256, n / 256 % 256]

/-- `struct.pack('<L', n)`: four little-endian bytes. -/
def u32le (n : Nat) : List Nat :=
  [n % 256, n / 256 % 256, n / 65536 % 256, n / 16777216 % 256]

/-- Decode a four-byte little-endian field back to a number (how a WAVE
reader interprets the two size fields). -/
def readU32 (file : List Nat) (pos : Nat) : Nat :=
  ((file.drop pos).take 4).foldr (fun b acc => b + 256 * acc) 0

/-- Models `f.seek(pos)` followed by `f.write(bytes)` on an open binary
file: overwrite in place, leaving the rest untouched. -/
def writeAt (file : List Nat) (pos : Nat) (bytes : List Nat) : List Nat :=
  file.take pos ++ bytes ++ file.drop (pos + bytes.length)

/-- The six fields of the named tuple returned by Python's
`wave.open(...).getparams()`: `(nchannels, sampwidth, framerate, nframes,
comptype, compname)`. -/
structure WavParams where
  nchannels : Nat
  sampwidth : Nat
  framerate : Nat
  nframes : Nat
  comptype : String
  compname : String
deriving DecidableEq

/-- `params[:4]`, the slice the merge tools compare between chunks.
In Python's `wave` module the fourth entry of `getparams()` is `nframes`,
the chunk's frame count. -/
def params4 (p : WavParams) : Nat × Nat × Nat × Nat :=
  (p.nchannels, p.sampwidth, p.framerate, p.nframes)

/-- Result of opening one chunk file with `wave.open`: either the parsed
parameters together with the raw PCM bytes that
`readframes(getnframes())` returns, or an exception. -/
inductive ChunkData where
  | ok (params : WavParams) (pcm : List Nat)
  | corrupt
deriving DecidableEq

/-- A directory listing: filenames paired with their parsed content. -/
abbrev DirListing := List (FileName × ChunkData)

/-- Why a chunk was excluded, matching the two skip messages printed by
the merge loop (parameter mismatch, and corrupt file for any exception
while opening or reading). -/
inductive SkipReason where
  | formatMismatch
  | corruptFile
deriving DecidableEq

/-- Fatal outcomes of a merge run (the tool prints an error and returns,
or an uncaught exception aborts it, before or instead of finishing). -/
inductive MergeError where
  | noFolder
  | noChunks
  | badChunkName
  | firstChunkFailed
deriving DecidableEq

/-- Mutable state of the merge loop: PCM bytes written so far after the
44-byte header, the `total_frames` accumulator, how many chunks were
merged, and the skipped chunks with their reasons. -/
structure LoopState where
  data : List Nat
  totalFrames : Nat
  mergedCount : Nat
  skipped : List (FileName × SkipReason)
deriving DecidableEq

/-- Result of a successful merge run: the output file's bytes plus the
report data the tool prints at the end. -/
structure MergeOutput where
  bytes : List Nat
  totalFrames : Nat
  mergedCount : Nat
  skipped : List (FileName × SkipReason)
  outputName : FileName
deriving DecidableEq

/-- The byte tag `b'RIFF'`. -/
def riffTag : List Nat := [82, 73, 70, 70]

/-- Bytes 8..39 of the header written by `merge_audio_fixed`: `b'WAVE'`,
the complete `fmt ` sub-chunk, and the `b'data'` tag, exactly as the
sequence of `struct.pack` writes in the source. -/
def wavePart (p : WavParams) : List Nat :=
  [87, 65, 86, 69] ++ [102, 109, 116, 32] ++ u32le 16 ++ u16le 1 ++
  u16le p.nchannels ++ u32le p.framerate ++
  u32le (p.framerate * p.nchannels * p.sampwidth) ++
  u16le (p.nchannels * p.sampwidth) ++ u16le (p.sampwidth * 8) ++
  [100, 97, 116, 97]

/-- The full 44-byte RIFF/WAVE header with the two size fields.
`merge_audio_fixed` first writes it with both sizes 0 (placeholders) and
backpatches them at the end; Python's `wave` writer produces the same
layout directly. -/
def wavHeader (p : WavParams) (riffSize dataSize : Nat) : List Nat :=
  riffTag ++ u32le riffSize ++ wavePart p ++ u32le dataSize

/-- The literal `chunk_` (the fixed part of the glob pattern). -/
def chunkLit : List Char := ['c', 'h', 'u', 'n', 'k', '_']

/-- The literal `.wav`. -/
def wavLit : List Char := ['.', 'w', 'a', 'v']

/-- `glob.glob("temp_audio_chunks/chunk_*.wav")` membership test on a
bare filename: the name is `chunk_`, then anything, then `.wav`. -/
def matchesChunkPattern (name : FileName) : Bool :=
  chunkLit.isPrefixOf name && wavLit.isSuffixOf name && 10 ≤ name.length

/-- `os.path.basename`: the part after the last `/`. -/
def pyBasename (path : FileName) : FileName :=
  (splitOnCh '/' path).getLastD path

/-- `int(os.path.basename(x).split('_')[1].split('.')[0])`, the sort key
used by every merge tool; `none` when Python would raise. -/
def chunkIndex (path : FileName) : Option Nat :=
  match (splitOnCh '_' (pyBasename path)).get? 1 with
  | none => none
  | some t =>
    match (splitOnCh '.' t).get? 0 with
    | none => none
    | some d => pyToNat? d

/-- The sort key, defaulted; only used on names whose key parses. -/
def keyD (name : FileName) : Nat := (chunkIndex name).getD 0

/-- The glob step: filenames in the directory matching `chunk_*.wav`. -/
def discoveredNames (dir : DirListing) : List FileName :=
  (dir.map Prod.fst).filter matchesChunkPattern

/-- `wav_files.sort(key=...)`: stable sort by the numeric key. -/
def sortedNames (dir : DirListing) : List FileName :=
  (discoveredNames dir).mergeSort (fun a b => keyD a ≤ keyD b)

/-- `wave.open(wav_files[0], 'rb').getparams()`: the reference format of
the job, `none` when there is no first chunk or opening it raises. -/
def refParamsOf (dir : DirListing) : Option WavParams :=
  match sortedNames dir with
  | [] => none
  | first :: _ =>
    match List.lookup first dir with
    | some (ChunkData.ok p _) => some p
    | _ => none

/-- The body of the inner merge loop of `merge_audio_fixed` (and of
`merge_wav_files`) for one chunk file: open it (a failure is caught and
the file is skipped as corrupt), compare `getparams()[:4]` with the
reference parameters (a mismatch is skipped), otherwise append the PCM
bytes and add `getnframes()` to `total_frames`. -/
def processChunk (dir : DirListing) (refP : WavParams) (st : LoopState)
    (name : FileName) : LoopState :=
  match List.lookup name dir with
  | some (ChunkData.ok p pcm) =>
    if params4 p = params4 refP then
      ⟨st.data ++ pcm, st.totalFrames + p.nframes, st.mergedCount + 1, st.skipped⟩
    else
      ⟨st.data, st.totalFrames, st.mergedCount,
        st.skipped ++ [(name, SkipReason.formatMismatch)]⟩
  | _ =>
    ⟨st.data, st.totalFrames, st.mergedCount,
      st.skipped ++ [(name, SkipReason.corruptFile)]⟩

/-- Python slice `xs[s:e]` for `s ≤ e ≤ len(xs)`. -/
def pySlice (xs : List α) (s e : Nat) : List α := (xs.drop s).take (e - s)

/-- `total_batches = (len(wav_files) + batch_size - 1) // batch_size`. -/
def numBatches (b n : Nat) : Nat := (n + b - 1) / b

/-- The batched outer loop: for each `batch_num` in
`range(total_batches)` take the slice `files[start_idx:end_idx]` and run
the per-chunk step `f` over it. -/
def processBatches (b : Nat) (f : LoopState → FileName → LoopState)
    (names : List FileName) (st : LoopState) : LoopState :=
  (List.range (numBatches b names.length)).foldl
    (fun s i => (pySlice names (i * b) (min (i * b + b) names.length)).foldl f s) st

/-- `merge_audio_fixed` from `修复合并工具.py`: check the folder, glob
and numerically sort the chunk files, read the first chunk's parameters,
write a header with placeholder sizes, stream the chunks in batches of
100, then backpatch the RIFF size (`file length - 8`) at offset 4 and the
data size (`file length - 44`) at offset 40.  The output name is the
hard-coded `镇国驸马爷-完整音频.wav`. -/
def merge_audio_fixed (root : Option DirListing) : Except MergeError MergeOutput :=
  match root with
  | none => Except.error MergeError.noFolder
  | some dir =>
    let names := discoveredNames dir
    if names.isEmpty then Except.error MergeError.noChunks
    else if names.all (fun n => (chunkIndex n).isSome) then
      match refParamsOf dir with
      | none => Except.error MergeError.firstChunkFailed
      | some refP =>
        let st := processBatches 100 (processChunk dir refP) (sortedNames dir) ⟨[], 0, 0, []⟩
        let file1 := wavHeader refP 0 0 ++ st.data
        let dataSize := file1.length - 44
        let fileSize := file1.length - 8
        let file2 := writeAt file1 4 (u32le fileSize)
        let file3 := writeAt file2 40 (u32le dataSize)
        Except.ok ⟨file3, st.totalFrames, st.mergedCount, st.skipped,
          "镇国驸马爷-完整音频.wav".toList⟩
    else Except.error MergeError.badChunkName

/-- `merge_wav_files` from `合并音频块.py`: same discovery, ordering and
per-chunk skip logic, but unbatched and written through Python's `wave`
writer, which on close patches the header to the exact sizes of the data
it wrote.  The output filename is the caller-supplied `output_file`. -/
def merge_wav_files (dir : DirListing) (outputFile : FileName) :
    Except MergeError MergeOutput :=
  let names := discoveredNames dir
  if names.isEmpty then Except.error MergeError.noChunks
  else if names.all (fun n => (chunkIndex n).isSome) then
    match refParamsOf dir with
    | none => Except.error MergeError.firstChunkFailed
    | some refP =>
      let st := (sortedNames dir).foldl (processChunk dir refP) ⟨[], 0, 0, []⟩
      let bytes := wavHeader refP (36 + st.data.length) st.data.length ++ st.data
      Except.ok ⟨bytes, st.data.length / (refP.nchannels * refP.sampwidth),
        st.mergedCount, st.skipped, outputFile⟩
  else Except.error MergeError.badChunkName

/-- `AudioSegment.silent(duration=ms)` rendered at `rate` frames/second
and `width` bytes per frame: `int(rate * ms / 1000)` frames of zero
bytes. -/
def silentGap (ms rate width : Nat) : List Nat :=
  List.replicate (rate * ms / 1000 * width) 0

/-- The pydub merge loop of `txt_to_wav_large_file.py` (gap 300 ms) and
`txt_to_mp3_advanced.py` (gap 500 ms): `combined = AudioSegment.empty()`,
then for every chunk `combined += audio_chunk` followed unconditionally
by `combined += AudioSegment.silent(duration=...)`. -/
def pydubMergeLoop (chunks : List (List Nat)) (gapMs rate width : Nat) : List Nat :=
  chunks.foldl (fun acc c => acc ++ c ++ silentGap gapMs rate width) []

/-! ### Text chunkers

`split_text_smart` from `txt_to_wav_large_file.py` and
`split_text_into_chunks` from `txt_to_mp3_advanced.py`, translated
statement by statement over `List Char`. -/

/-- The character class of `re.split(r'[。！？.!?]', ...)` and of the
`endswith` tuple: the sentence-terminator punctuation. -/
def isTermChar (c : Char) : Bool :=
  c = '。' || c = '！' || c = '？' || c = '.' || c = '!' || c = '?'

/-- Whitespace as stripped by Python's `str.strip()` (the ASCII cases). -/
def isPyWs (c : Char) : Bool :=
  c = ' ' || c = '\t' || c = '\n' || c = '\r' || c = '\x0b' || c = '\x0c'

/-- Python `s.strip()`: drop leading and trailing whitespace. -/
def pyStrip (s : List Char) : List Char :=
  ((s.dropWhile isPyWs).reverse.dropWhile isPyWs).reverse

/-- Python `text.split('\n\n')`: split on the two-character separator,
non-overlapping, left to right. -/
def splitParas : List Char → List (List Char)
  | [] => [[]]
  | '\n' :: '\n' :: rest => [] :: splitParas rest
  | c :: rest =>
    match splitParas rest with
    | [] => [[c]]
    | h :: t => (c :: h) :: t

/-- `re.split(r'[。！？.!?]', text)`: split on every single terminator
character. -/
def splitSents : List Char → List (List Char)
  | [] => [[]]
  | c :: rest =>
    if isTermChar c then [] :: splitSents rest
    else
      match splitSents rest with
      | [] => [[c]]
      | h :: t => (c :: h) :: t

/-- `sentence.endswith(('。', '！', '？', '.', '!', '?'))`. -/
def endsWithTerm (s : List Char) : Bool :=
  match s.getLast? with
  | some c => isTermChar c
  | none => false

/-- The `if not sentence.endswith(...): sentence += '。'` step of
`split_text_smart`. -/
def addTerm (s : List Char) : List Char :=
  if endsWithTerm s then s else s ++ ['。']

/-- The two locals of both chunkers: the `chunks` list built so far and
the `current_chunk` accumulator. -/
structure ChunkState where
  chunks : List (List Char)
  current : List Char
deriving DecidableEq

/-- The flush idiom `if current_chunk: chunks.append(current_chunk.strip())`. -/
def flushChunks (st : ChunkState) : List (List Char) :=
  if st.current.isEmpty then st.chunks else st.chunks ++ [pyStrip st.current]

/-- One iteration of the sentence loop inside the oversized-paragraph
branch of `split_text_smart`: strip, skip empties, re-append a
terminator, then either extend `current_chunk` (when the sum of lengths
stays under the limit) or flush it and restart from this sentence. -/
def addSentenceSmart (maxSize : Nat) (st : ChunkState) (s0 : List Char) : ChunkState :=
  let s1 := pyStrip s0
  if s1.isEmpty then st
  else
    let s := addTerm s1
    if st.current.length + s.length < maxSize then
      ⟨st.chunks, st.current ++ s⟩
    else
      ⟨flushChunks st, s⟩

/-- One iteration of the paragraph loop of `split_text_smart`: strip,
skip empties; an oversized paragraph is re-split into sentences, a small
one is appended (plus `'\n'`) to `current_chunk` or starts a new one. -/
def addParagraphSmart (maxSize : Nat) (st : ChunkState) (p0 : List Char) : ChunkState :=
  let p := pyStrip p0
  if p.isEmpty then st
  else if maxSize < p.length then
    (splitSents p).foldl (addSentenceSmart maxSize) st
  else if st.current.length + p.length < maxSize then
    ⟨st.chunks, st.current ++ p ++ ['\n']⟩
  else
    ⟨flushChunks st, p ++ ['\n']⟩

/-- `split_text_smart(text, max_chunk_size)` from
`txt_to_wav_large_file.py`. -/
def split_text_smart (text : List Char) (maxSize : Nat) : List (List Char) :=
  flushChunks ((splitParas text).foldl (addParagraphSmart maxSize) ⟨[], []⟩)

/-- One iteration of the sentence loop of `split_text_into_chunks`: the
length check uses the bare sentence, the terminator `'。'` is appended
unconditionally after the check. -/
def addSentenceAdv (maxSize : Nat) (st : ChunkState) (s0 : List Char) : ChunkState :=
  let s := pyStrip s0
  if s.isEmpty then st
  else if st.current.length + s.length < maxSize then
    ⟨st.chunks, st.current ++ s ++ ['。']⟩
  else
    ⟨flushChunks st, s ++ ['。']⟩

/-- `split_text_into_chunks(text, max_chunk_size)` from
`txt_to_mp3_advanced.py`. -/
def split_text_into_chunks (text : List Char) (maxSize : Nat) : List (List Char) :=
  flushChunks ((splitSents text).foldl (addSentenceAdv maxSize) ⟨[], []⟩)

/-! ### Classification of one chunk inside the merge loop -/

/-- A chunk is accepted (streamed into the output) when it opens and its
`getparams()[:4]` equals the reference slice. -/
def acceptsChunk (dir : DirListing) (refP : WavParams) (name : FileName) : Bool :=
  match List.lookup name dir with
  | some (ChunkData.ok p _) => params4 p = params4 refP
  | _ => false

/-- The PCM bytes the loop streams for an accepted chunk. -/
def pcmOf (dir : DirListing) (name : FileName) : List Nat :=
  match List.lookup name dir with
  | some (ChunkData.ok _ pcm) => pcm
  | _ => []

/-- The frame count the loop adds for an accepted chunk. -/
def nframesOf (dir : DirListing) (name : FileName) : Nat :=
  match List.lookup name dir with
  | some (ChunkData.ok p _) => p.nframes
  | _ => 0

/-- The skip record the loop produces for a chunk that is not accepted:
a parameter mismatch or a corrupt (unparsable) file. -/
def skipEntryOf (dir : DirListing) (refP : WavParams) (name : FileName) :
    Option (FileName × SkipReason) :=
  match List.lookup name dir with
  | some (ChunkData.ok p _) =>
    if params4 p = params4 refP then none else some (name, SkipReason.formatMismatch)
  | _ => some (name, SkipReason.corruptFile)

/-! ### Lemmas: the merge loop, batching, and header backpatching -/

theorem foldl_processChunk (dir : DirListing) (refP : WavParams) :
    ∀ (names : List FileName) (st : LoopState),
    names.foldl (processChunk dir refP) st =
      ⟨st.data ++ (((names.filter (acceptsChunk dir refP)).map (pcmOf dir)).flatten),
       st.totalFrames + (((names.filter (acceptsChunk dir refP)).map (nframesOf dir)).sum),
       st.mergedCount + (names.filter (acceptsChunk dir refP)).length,
       st.skipped ++ names.filterMap (skipEntryOf dir refP)⟩ := by
  intro names
  induction names with
  | nil => intro st; simp
  | cons n rest ih =>
    intro st
    simp only [List.foldl_cons, ih]
    cases hl : List.lookup n dir with
    | none =>
      simp [processChunk, acceptsChunk, skipEntryOf, pcmOf, nframesOf, hl,
        List.filter_cons, List.filterMap_cons]
    | some cd =>
      cases cd with
      | corrupt =>
        simp [processChunk, acceptsChunk, skipEntryOf, pcmOf, nframesOf, hl,
          List.filter_cons, List.filterMap_cons]
      | ok p pcm =>
        by_cases hp : params4 p = params4 refP
        · simp [processChunk, acceptsChunk, skipEntryOf, pcmOf, nframesOf, hl, hp,
            List.filter_cons, List.filterMap_cons, Nat.add_assoc, Nat.add_comm 1]
        · simp [processChunk, acceptsChunk, skipEntryOf, pcmOf, nframesOf, hl, hp,
            List.filter_cons, List.filterMap_cons]

theorem pySlice_batch_zero (xs : List α) (b : Nat) :
    pySlice xs 0 (min b xs.length) = xs.take b := by
  have h := List.take_take b xs.length xs
  rw [List.take_length] at h
  unfold pySlice
  simp only [List.drop_zero, Nat.sub_zero]
  exact h.symm

theorem pySlice_batch_succ (xs : List α) (b i : Nat) :
    pySlice xs ((i + 1) * b) (min ((i + 1) * b + b) xs.length) =
    pySlice (xs.drop b) (i * b) (min (i * b + b) (xs.drop b).length) := by
  have hmul : (i + 1) * b = i * b + b := Nat.succ_mul i b
  have hdrop : (xs.drop b).drop (i * b) = xs.drop ((i + 1) * b) := by
    rw [List.drop_drop, hmul, Nat.add_comm]
  have hamount : ∀ n : Nat,
      min ((i + 1) * b + b) n - (i + 1) * b = min (i * b + b) (n - b) - i * b := by
    intro n
    rw [hmul]
    omega
  simp [pySlice, hdrop, List.length_drop, hamount xs.length]

theorem numBatches_step (b : Nat) (hb : 0 < b) (n : Nat) (hn : 0 < n) :
    numBatches b n = numBatches b (n - b) + 1 := by
  unfold numBatches
  rw [show n + b - 1 = (n - 1) + b by omega, Nat.add_div_right _ hb]
  rcases le_or_lt b n with h | h
  · rw [show n - b + b - 1 = n - 1 by omega]
  · rw [show n - b + b - 1 = b - 1 by omega,
      Nat.div_eq_of_lt (show n - 1 < b by omega),
      Nat.div_eq_of_lt (show b - 1 < b by omega)]

theorem flatten_batches (b : Nat) (hb : 0 < b) (xs : List α) :
    ((List.range (numBatches b xs.length)).map
      (fun i => pySlice xs (i * b) (min (i * b + b) xs.length))).flatten = xs := by
  suffices h : ∀ (n : Nat) (ys : List α), ys.length ≤ n →
      ((List.range (numBatches b ys.length)).map
        (fun i => pySlice ys (i * b) (min (i * b + b) ys.length))).flatten = ys from
    h xs.length xs (Nat.le_refl _)
  intro n
  induction n with
  | zero =>
    intro ys hy
    have : ys = [] := List.eq_nil_of_length_eq_zero (Nat.le_zero.mp hy)
    subst this
    have h0 : numBatches b 0 = 0 := Nat.div_eq_of_lt (by omega)
    simp [h0]
  | succ n ih =>
    intro ys hy
    by_cases hnil : ys = []
    · subst hnil
      have h0 : numBatches b 0 = 0 := Nat.div_eq_of_lt (by omega)
      simp [h0]
    · have hpos : 0 < ys.length := List.length_pos.mpr hnil
      have hld : (ys.drop b).length = ys.length - b := by simp
      rw [numBatches_step b hb ys.length hpos, ← hld, List.range_succ_eq_map]
      simp only [List.map_cons, List.map_map, List.flatten_cons, Nat.zero_mul,
        Nat.zero_add]
      have hzero : pySlice ys 0 (min b ys.length) = ys.take b :=
        pySlice_batch_zero ys b
      have hfun : ((fun i => pySlice ys (i * b) (min (i * b + b) ys.length)) ∘ Nat.succ) =
          (fun i => pySlice (ys.drop b) (i * b) (min (i * b + b) (ys.drop b).length)) := by
        funext i
        exact pySlice_batch_succ ys b i
      rw [hzero, hfun, ih (ys.drop b) (by rw [hld]; omega), List.take_append_drop]

theorem processBatches_eq_foldl (b : Nat) (hb : 0 < b)
    (f : LoopState → FileName → LoopState) (names : List FileName) (st : LoopState) :
    processBatches b f names st = names.foldl f st := by
  unfold processBatches
  have h1 : (List.range (numBatches b names.length)).foldl
      (fun s i => (pySlice names (i * b) (min (i * b + b) names.length)).foldl f s) st =
      ((List.range (numBatches b names.length)).map
        (fun i => pySlice names (i * b) (min (i * b + b) names.length))).foldl
        (fun s l => l.foldl f s) st := by
    rw [List.foldl_map]
  rw [h1, ← List.foldl_flatten, flatten_batches b hb]

theorem writeAt_append_middle (a b c bNew : List Nat) (h : bNew.length = b.length) :
    writeAt (a ++ (b ++ c)) a.length bNew = a ++ (bNew ++ c) := by
  unfold writeAt
  have h1 : (a ++ (b ++ c)).take a.length = a := by
    simp
  have h2 : (a ++ (b ++ c)).drop (a.length + bNew.length) = c := by
    rw [h, @List.drop_append _ a (b ++ c) b.length]
    simp
  rw [h1, h2, List.append_assoc]

theorem wavePart_length (p : WavParams) : (wavePart p).length = 32 := by
  simp [wavePart, u16le, u32le]

theorem wavHeader_length (p : WavParams) (fs ds : Nat) :
    (wavHeader p fs ds).length = 44 := by
  simp [wavHeader, riffTag, u32le, wavePart_length]

theorem backpatch_header (p : WavParams) (fs ds : Nat) (data : List Nat) :
    writeAt (writeAt (wavHeader p 0 0 ++ data) 4 (u32le fs)) 40 (u32le ds) =
      wavHeader p fs ds ++ data := by
  have hlen4 : ∀ m : Nat, (u32le m).length = 4 := by intro m; simp [u32le]
  have s1 : wavHeader p 0 0 ++ data =
      riffTag ++ (u32le 0 ++ (wavePart p ++ (u32le 0 ++ data))) := by
    simp [wavHeader, List.append_assoc]
  have s2 : writeAt (riffTag ++ (u32le 0 ++ (wavePart p ++ (u32le 0 ++ data)))) 4 (u32le fs) =
      riffTag ++ (u32le fs ++ (wavePart p ++ (u32le 0 ++ data))) := by
    have := writeAt_append_middle riffTag (u32le 0) (wavePart p ++ (u32le 0 ++ data))
      (u32le fs) (by simp [u32le])
    simpa [riffTag] using this
  have s3 : riffTag ++ (u32le fs ++ (wavePart p ++ (u32le 0 ++ data))) =
      (riffTag ++ u32le fs ++ wavePart p) ++ (u32le 0 ++ data) := by
    simp [List.append_assoc]
  have s4 : writeAt ((riffTag ++ u32le fs ++ wavePart p) ++ (u32le 0 ++ data)) 40 (u32le ds) =
      (riffTag ++ u32le fs ++ wavePart p) ++ (u32le ds ++ data) := by
    have := writeAt_append_middle (riffTag ++ u32le fs ++ wavePart p) (u32le 0) data
      (u32le ds) (by simp [u32le])
    have hlen : (riffTag ++ u32le fs ++ wavePart p).length = 40 := by
      simp [riffTag, hlen4, wavePart_length]
    rwa [hlen] at this
  rw [s1, s2, s3, s4]
  simp [wavHeader, List.append_assoc]

theorem sortedNames_perm (dir : DirListing) :
    (sortedNames dir).Perm (discoveredNames dir) :=
  List.mergeSort_perm _ _

theorem discoveredNames_ne_nil (dir : DirListing) (refP : WavParams)
    (h1 : refParamsOf dir = some refP) : (discoveredNames dir).isEmpty = false := by
  rcases hs : sortedNames dir with _ | ⟨first, rest⟩
  · rw [refParamsOf, hs] at h1
    exact absurd h1 (by simp)
  · have hperm := sortedNames_perm dir
    rw [hs] at hperm
    have : discoveredNames dir ≠ [] := by
      intro hcon
      rw [hcon] at hperm
      have := hperm.eq_nil
      simp at this
    simpa [List.isEmpty_iff] using this

/-- Full characterization of a successful `merge_audio_fixed` run: the
output bytes are the backpatched header followed by the accepted chunks'
PCM data in catalog order, `total_frames` is the sum of the accepted
chunks' frame counts, and `skipped` collects exactly the not-accepted
chunks. -/
theorem merge_audio_fixed_ok (dir : DirListing) (refP : WavParams)
    (h1 : refParamsOf dir = some refP)
    (h2 : (discoveredNames dir).all (fun n => (chunkIndex n).isSome) = true) :
    merge_audio_fixed (some dir) =
      Except.ok
        ⟨wavHeader refP
            (36 + ((((sortedNames dir).filter (acceptsChunk dir refP)).map (pcmOf dir)).flatten).length)
            ((((sortedNames dir).filter (acceptsChunk dir refP)).map (pcmOf dir)).flatten).length ++
          (((sortedNames dir).filter (acceptsChunk dir refP)).map (pcmOf dir)).flatten,
         (((sortedNames dir).filter (acceptsChunk dir refP)).map (nframesOf dir)).sum,
         ((sortedNames dir).filter (acceptsChunk dir refP)).length,
         (sortedNames dir).filterMap (skipEntryOf dir refP),
         "镇国驸马爷-完整音频.wav".toList⟩ := by
  have hne := discoveredNames_ne_nil dir refP h1
  simp only [merge_audio_fixed, hne, h2, h1, Bool.false_eq_true, if_false, if_true]
  rw [processBatches_eq_foldl 100 (by omega), foldl_processChunk]
  simp only [List.nil_append, Nat.zero_add]
  generalize (((sortedNames dir).filter (acceptsChunk dir refP)).map (pcmOf dir)).flatten = d
  have hlen : (wavHeader refP 0 0 ++ d).length = 44 + d.length := by
    rw [List.length_append, wavHeader_length]
  rw [hlen, show 44 + d.length - 44 = d.length by omega,
    show 44 + d.length - 8 = 36 + d.length by omega, backpatch_header]

/-! ### Lemmas about `pyStrip` -/

/-- The right half of `pyStrip` (Python `s.rstrip()`), used only to
state intermediate lemmas. -/
def pyRstrip (s : List Char) : List Char := (s.reverse.dropWhile isPyWs).reverse

theorem pyStrip_eq_rstrip (s : List Char) :
    pyStrip s = pyRstrip (s.dropWhile isPyWs) := rfl

theorem dropWhile_idem (p : Char → Bool) (l : List Char) :
    (l.dropWhile p).dropWhile p = l.dropWhile p := by
  induction l with
  | nil => simp
  | cons a l ih =>
    by_cases hp : p a
    · simp [List.dropWhile_cons, hp, ih]
    · simp [List.dropWhile_cons, hp]

theorem pyRstrip_prefix (y : List Char) : pyRstrip y <+: y := by
  have h : y.reverse.dropWhile isPyWs <:+ y.reverse :=
    @List.dropWhile_suffix _ y.reverse isPyWs
  have h2 := List.reverse_prefix.mpr h
  rwa [List.reverse_reverse] at h2

theorem lstrip_pyRstrip (y : List Char) (hy : y.dropWhile isPyWs = y) :
    (pyRstrip y).dropWhile isPyWs = pyRstrip y := by
  cases hr : pyRstrip y with
  | nil => simp
  | cons c t =>
    obtain ⟨t2, ht2⟩ := pyRstrip_prefix y
    rw [hr] at ht2
    have hws : isPyWs c = false := by
      by_contra hcon
      have hc : isPyWs c = true := by simpa using hcon
      rw [← ht2] at hy
      simp only [List.cons_append, List.dropWhile_cons, hc, if_true] at hy
      have hlen := congrArg List.length hy
      rw [List.length_cons] at hlen
      have hle := (@List.dropWhile_sublist _ (t ++ t2) isPyWs).length_le
      omega
    simp [List.dropWhile_cons, hws]

theorem pyStrip_lstrip_stable (s : List Char) :
    (pyStrip s).dropWhile isPyWs = pyStrip s := by
  rw [pyStrip_eq_rstrip]
  exact lstrip_pyRstrip _ (dropWhile_idem _ _)

theorem pyStrip_reverse_stable (s : List Char) :
    (pyStrip s).reverse.dropWhile isPyWs = (pyStrip s).reverse := by
  rw [pyStrip_eq_rstrip]
  unfold pyRstrip
  rw [List.reverse_reverse]
  exact dropWhile_idem _ _

theorem pyStrip_idem (s : List Char) : pyStrip (pyStrip s) = pyStrip s := by
  calc pyStrip (pyStrip s)
      = (((pyStrip s).dropWhile isPyWs).reverse.dropWhile isPyWs).reverse := rfl
    _ = ((pyStrip s).reverse.dropWhile isPyWs).reverse := by
        rw [pyStrip_lstrip_stable]
    _ = ((pyStrip s).reverse).reverse := by rw [pyStrip_reverse_stable]
    _ = pyStrip s := List.reverse_reverse _

theorem pyStrip_length_le (s : List Char) : (pyStrip s).length ≤ s.length := by
  calc (pyStrip s).length = ((s.dropWhile isPyWs).reverse.dropWhile isPyWs).length :=
        List.length_reverse _
    _ ≤ (s.dropWhile isPyWs).reverse.length :=
        (@List.dropWhile_sublist _ _ isPyWs).length_le
    _ = (s.dropWhile isPyWs).length := List.length_reverse _
    _ ≤ s.length := (@List.dropWhile_sublist _ _ isPyWs).length_le

theorem pyStrip_append_nonws (s : List Char) (c : Char) (hc : isPyWs c = false) :
    pyStrip (pyStrip s ++ [c]) = pyStrip s ++ [c] := by
  cases hy : pyStrip s with
  | nil =>
    simp only [List.nil_append]
    simp [pyStrip, List.dropWhile_cons, hc]
  | cons d t =>
    have hst := pyStrip_lstrip_stable s
    rw [hy] at hst
    have h1 : ((d :: t) ++ [c]).dropWhile isPyWs = (d :: t) ++ [c] := by
      rw [List.dropWhile_append, hst]
      simp
    calc pyStrip ((d :: t) ++ [c])
        = pyRstrip (((d :: t) ++ [c]).dropWhile isPyWs) := pyStrip_eq_rstrip _
      _ = pyRstrip ((d :: t) ++ [c]) := by rw [h1]
      _ = (d :: t) ++ [c] := by
          unfold pyRstrip
          rw [List.reverse_append]
          simp only [List.reverse_cons, List.reverse_nil, List.nil_append,
            List.singleton_append, List.dropWhile_cons, hc, Bool.false_eq_true,
            if_false]
          simp

theorem pyStrip_append_ws (s : List Char) (c : Char) (hc : isPyWs c = true) :
    pyStrip (pyStrip s ++ [c]) = pyStrip s := by
  cases hy : pyStrip s with
  | nil =>
    simp only [List.nil_append]
    simp [pyStrip, List.dropWhile_cons, hc]
  | cons d t =>
    have hst := pyStrip_lstrip_stable s
    rw [hy] at hst
    have hrev := pyStrip_reverse_stable s
    rw [hy] at hrev
    have h1 : ((d :: t) ++ [c]).dropWhile isPyWs = (d :: t) ++ [c] := by
      rw [List.dropWhile_append, hst]
      simp
    calc pyStrip ((d :: t) ++ [c])
        = pyRstrip (((d :: t) ++ [c]).dropWhile isPyWs) := pyStrip_eq_rstrip _
      _ = pyRstrip ((d :: t) ++ [c]) := by rw [h1]
      _ = d :: t := by
          unfold pyRstrip
          rw [List.reverse_append]
          simp only [List.reverse_cons, List.reverse_nil, List.nil_append,
            List.singleton_append, List.dropWhile_cons, hc, if_true]
          rw [List.reverse_cons] at hrev
          rw [hrev]
          simp

/-! ### Size bound of the chunkers -/

/-- A unit of `split_text_smart` exempt from the size bound: a single
stripped sentence fragment of one paragraph, with the terminator
re-appended exactly as the source does, that exceeds the limit on its
own. -/
def SmartOversized (text : List Char) (maxSize : Nat) (u : List Char) : Prop :=
  ∃ p ∈ splitParas text, ∃ s ∈ splitSents (pyStrip p),
    (pyStrip s).isEmpty = false ∧ u = addTerm (pyStrip s) ∧ maxSize < u.length

/-- Invariant maintained by the `split_text_smart` loop: every finished
chunk obeys the bound or is an oversized single sentence, and the
accumulator strips to within the bound or is itself an oversized single
sentence that stripping leaves untouched. -/
def SmartInv (text : List Char) (maxSize : Nat) (st : ChunkState) : Prop :=
  (∀ u ∈ st.chunks, u.length ≤ maxSize ∨ SmartOversized text maxSize u) ∧
  ((pyStrip st.current).length ≤ maxSize ∨
    (SmartOversized text maxSize st.current ∧ pyStrip st.current = st.current))

/-- A unit of `split_text_into_chunks` exempt from the size bound: one
stripped sentence fragment with the unconditional `'。'` appended, over
the limit on its own. -/
def AdvOversized (text : List Char) (maxSize : Nat) (u : List Char) : Prop :=
  ∃ s ∈ splitSents text,
    (pyStrip s).isEmpty = false ∧ u = pyStrip s ++ ['。'] ∧ maxSize < u.length

/-- Invariant maintained by the `split_text_into_chunks` loop. -/
def AdvInv (text : List Char) (maxSize : Nat) (st : ChunkState) : Prop :=
  (∀ u ∈ st.chunks, u.length ≤ maxSize ∨ AdvOversized text maxSize u) ∧
  ((pyStrip st.current).length ≤ maxSize ∨
    (AdvOversized text maxSize st.current ∧ pyStrip st.current = st.current))

theorem foldl_inv_mem {α : Type} (f : ChunkState → α → ChunkState)
    (P : ChunkState → Prop) (L : List α)
    (hf : ∀ st a, a ∈ L → P st → P (f st a)) :
    ∀ l : List α, (∀ a ∈ l, a ∈ L) → ∀ st, P st → P (l.foldl f st) := by
  intro l
  induction l with
  | nil => intro _ st h; simpa using h
  | cons a l ih =>
    intro hmem st hst
    simp only [List.foldl_cons]
    exact ih (fun x hx => hmem x (List.mem_cons_of_mem _ hx)) _
      (hf st a (hmem a (List.mem_cons_self _ _)) hst)

theorem addSentenceSmart_empty (maxSize : Nat) (st : ChunkState) (s0 : List Char)
    (h : (pyStrip s0).isEmpty = true) : addSentenceSmart maxSize st s0 = st := by
  simp [addSentenceSmart, h]

theorem addSentenceSmart_fits (maxSize : Nat) (st : ChunkState) (s0 : List Char)
    (h1 : (pyStrip s0).isEmpty = false)
    (h2 : st.current.length + (addTerm (pyStrip s0)).length < maxSize) :
    addSentenceSmart maxSize st s0 = ⟨st.chunks, st.current ++ addTerm (pyStrip s0)⟩ := by
  simp [addSentenceSmart, h1, h2]

theorem addSentenceSmart_flush (maxSize : Nat) (st : ChunkState) (s0 : List Char)
    (h1 : (pyStrip s0).isEmpty = false)
    (h2 : ¬ (st.current.length + (addTerm (pyStrip s0)).length < maxSize)) :
    addSentenceSmart maxSize st s0 = ⟨flushChunks st, addTerm (pyStrip s0)⟩ := by
  simp [addSentenceSmart, h1, h2]

theorem addParagraphSmart_empty (maxSize : Nat) (st : ChunkState) (p0 : List Char)
    (h : (pyStrip p0).isEmpty = true) : addParagraphSmart maxSize st p0 = st := by
  simp [addParagraphSmart, h]

theorem addParagraphSmart_big (maxSize : Nat) (st : ChunkState) (p0 : List Char)
    (h1 : (pyStrip p0).isEmpty = false) (h2 : maxSize < (pyStrip p0).length) :
    addParagraphSmart maxSize st p0 =
      (splitSents (pyStrip p0)).foldl (addSentenceSmart maxSize) st := by
  simp [addParagraphSmart, h1, h2]

theorem addParagraphSmart_append (maxSize : Nat) (st : ChunkState) (p0 : List Char)
    (h1 : (pyStrip p0).isEmpty = false) (h2 : ¬ maxSize < (pyStrip p0).length)
    (h3 : st.current.length + (pyStrip p0).length < maxSize) :
    addParagraphSmart maxSize st p0 =
      ⟨st.chunks, st.current ++ pyStrip p0 ++ ['\n']⟩ := by
  simp [addParagraphSmart, h1, h2, h3]

theorem addParagraphSmart_flush (maxSize : Nat) (st : ChunkState) (p0 : List Char)
    (h1 : (pyStrip p0).isEmpty = false) (h2 : ¬ maxSize < (pyStrip p0).length)
    (h3 : ¬ st.current.length + (pyStrip p0).length < maxSize) :
    addParagraphSmart maxSize st p0 = ⟨flushChunks st, pyStrip p0 ++ ['\n']⟩ := by
  simp [addParagraphSmart, h1, h2, h3]

theorem addSentenceAdv_empty (maxSize : Nat) (st : ChunkState) (s0 : List Char)
    (h : (pyStrip s0).isEmpty = true) : addSentenceAdv maxSize st s0 = st := by
  simp [addSentenceAdv, h]

theorem addSentenceAdv_fits (maxSize : Nat) (st : ChunkState) (s0 : List Char)
    (h1 : (pyStrip s0).isEmpty = false)
    (h2 : st.current.length + (pyStrip s0).length < maxSize) :
    addSentenceAdv maxSize st s0 = ⟨st.chunks, st.current ++ pyStrip s0 ++ ['。']⟩ := by
  simp [addSentenceAdv, h1, h2]

theorem addSentenceAdv_flush (maxSize : Nat) (st : ChunkState) (s0 : List Char)
    (h1 : (pyStrip s0).isEmpty = false)
    (h2 : ¬ st.current.length + (pyStrip s0).length < maxSize) :
    addSentenceAdv maxSize st s0 = ⟨flushChunks st, pyStrip s0 ++ ['。']⟩ := by
  simp [addSentenceAdv, h1, h2]

theorem flushChunks_all (P : List Char → Prop) (st : ChunkState)
    (hchunks : ∀ u ∈ st.chunks, P u)
    (hcur : st.current.isEmpty = false → P (pyStrip st.current)) :
    ∀ u ∈ flushChunks st, P u := by
  intro u hu
  unfold flushChunks at hu
  by_cases hcurE : st.current.isEmpty
  · rw [if_pos hcurE] at hu
    exact hchunks u hu
  · rw [if_neg hcurE] at hu
    rcases List.mem_append.mp hu with h1 | h2
    · exact hchunks u h1
    · have hx : u = pyStrip st.current := by simpa using h2
      rw [hx]
      exact hcur (by simpa using hcurE)

theorem addSentenceSmart_inv (text : List Char) (maxSize : Nat) (p s0 : List Char)
    (hp : p ∈ splitParas text) (hs : s0 ∈ splitSents (pyStrip p))
    (st : ChunkState) (h : SmartInv text maxSize st) :
    SmartInv text maxSize (addSentenceSmart maxSize st s0) := by
  by_cases h1 : (pyStrip s0).isEmpty
  · rw [addSentenceSmart_empty _ _ _ h1]
    exact h
  · have h1f : (pyStrip s0).isEmpty = false := by simpa using h1
    by_cases h2 : st.current.length + (addTerm (pyStrip s0)).length < maxSize
    · rw [addSentenceSmart_fits _ _ _ h1f h2]
      refine ⟨h.1, Or.inl ?_⟩
      calc (pyStrip (st.current ++ addTerm (pyStrip s0))).length
          ≤ (st.current ++ addTerm (pyStrip s0)).length := pyStrip_length_le _
        _ = st.current.length + (addTerm (pyStrip s0)).length := List.length_append _ _
        _ ≤ maxSize := by omega
    · rw [addSentenceSmart_flush _ _ _ h1f h2]
      refine ⟨?_, ?_⟩
      · exact flushChunks_all _ st h.1 (fun _ => by
          rcases h.2 with hl | ⟨hexc, heq⟩
          · exact Or.inl hl
          · rw [heq]
            exact Or.inr hexc)
      · by_cases h3 : (addTerm (pyStrip s0)).length ≤ maxSize
        · exact Or.inl (le_trans (pyStrip_length_le _) h3)
        · right
          have hterm : pyStrip (addTerm (pyStrip s0)) = addTerm (pyStrip s0) := by
            unfold addTerm
            by_cases h4 : endsWithTerm (pyStrip s0)
            · rw [if_pos h4]
              exact pyStrip_idem s0
            · rw [if_neg h4]
              exact pyStrip_append_nonws s0 '。' (by decide)
          exact ⟨⟨p, hp, s0, hs, h1f, rfl, by
            show maxSize < (addTerm (pyStrip s0)).length
            omega⟩, hterm⟩

theorem addParagraphSmart_inv (text : List Char) (maxSize : Nat) (p0 : List Char)
    (hp : p0 ∈ splitParas text) (st : ChunkState) (h : SmartInv text maxSize st) :
    SmartInv text maxSize (addParagraphSmart maxSize st p0) := by
  by_cases h1 : (pyStrip p0).isEmpty
  · rw [addParagraphSmart_empty _ _ _ h1]
    exact h
  · have h1f : (pyStrip p0).isEmpty = false := by simpa using h1
    by_cases h2 : maxSize < (pyStrip p0).length
    · rw [addParagraphSmart_big _ _ _ h1f h2]
      exact foldl_inv_mem (addSentenceSmart maxSize) (SmartInv text maxSize)
        (splitSents (pyStrip p0))
        (fun st2 s hsm hst => addSentenceSmart_inv text maxSize p0 s hp hsm st2 hst)
        _ (fun _ hx => hx) st h
    · by_cases h3 : st.current.length + (pyStrip p0).length < maxSize
      · rw [addParagraphSmart_append _ _ _ h1f h2 h3]
        refine ⟨h.1, Or.inl ?_⟩
        calc (pyStrip (st.current ++ pyStrip p0 ++ ['\n'])).length
            ≤ (st.current ++ pyStrip p0 ++ ['\n']).length := pyStrip_length_le _
          _ = st.current.length + (pyStrip p0).length + 1 := by
              simp only [List.length_append, List.length_cons, List.length_nil]
          _ ≤ maxSize := by omega
      · rw [addParagraphSmart_flush _ _ _ h1f h2 h3]
        refine ⟨?_, Or.inl ?_⟩
        · exact flushChunks_all _ st h.1 (fun _ => by
            rcases h.2 with hl | ⟨hexc, heq⟩
            · exact Or.inl hl
            · rw [heq]
              exact Or.inr hexc)
        · rw [pyStrip_append_ws p0 '\n' (by decide)]
          omega

theorem split_text_smart_sizes (text : List Char) (maxSize : Nat) :
    ∀ u ∈ split_text_smart text maxSize,
      u.length ≤ maxSize ∨ SmartOversized text maxSize u := by
  have hinit : SmartInv text maxSize ⟨[], []⟩ := by
    refine ⟨fun u hu => absurd hu (List.not_mem_nil u), Or.inl ?_⟩
    simp [pyStrip]
  have hfold : SmartInv text maxSize
      ((splitParas text).foldl (addParagraphSmart maxSize) ⟨[], []⟩) :=
    foldl_inv_mem (addParagraphSmart maxSize) (SmartInv text maxSize) (splitParas text)
      (fun st p hpm hst => addParagraphSmart_inv text maxSize p hpm st hst)
      _ (fun _ hx => hx) _ hinit
  intro u hu
  refine flushChunks_all _ _ hfold.1 (fun _ => ?_) u hu
  rcases hfold.2 with hl | ⟨hexc, heq⟩
  · exact Or.inl hl
  · rw [heq]
    exact Or.inr hexc

theorem addSentenceAdv_inv (text : List Char) (maxSize : Nat) (s0 : List Char)
    (hs : s0 ∈ splitSents text) (st : ChunkState) (h : AdvInv text maxSize st) :
    AdvInv text maxSize (addSentenceAdv maxSize st s0) := by
  by_cases h1 : (pyStrip s0).isEmpty
  · rw [addSentenceAdv_empty _ _ _ h1]
    exact h
  · have h1f : (pyStrip s0).isEmpty = false := by simpa using h1
    by_cases h2 : st.current.length + (pyStrip s0).length < maxSize
    · rw [addSentenceAdv_fits _ _ _ h1f h2]
      refine ⟨h.1, Or.inl ?_⟩
      calc (pyStrip (st.current ++ pyStrip s0 ++ ['。'])).length
          ≤ (st.current ++ pyStrip s0 ++ ['。']).length := pyStrip_length_le _
        _ = st.current.length + (pyStrip s0).length + 1 := by
            simp only [List.length_append, List.length_cons, List.length_nil]
        _ ≤ maxSize := by omega
    · rw [addSentenceAdv_flush _ _ _ h1f h2]
      refine ⟨?_, ?_⟩
      · exact flushChunks_all _ st h.1 (fun _ => by
          rcases h.2 with hl | ⟨hexc, heq⟩
          · exact Or.inl hl
          · rw [heq]
            exact Or.inr hexc)
      · by_cases h3 : (pyStrip s0 ++ ['。']).length ≤ maxSize
        · exact Or.inl (le_trans (pyStrip_length_le _) h3)
        · right
          exact ⟨⟨s0, hs, h1f, rfl, by
            show maxSize < (pyStrip s0 ++ ['。']).length
            omega⟩,
            pyStrip_append_nonws s0 '。' (by decide)⟩

theorem split_text_into_chunks_sizes (text : List Char) (maxSize : Nat) :
    ∀ u ∈ split_text_into_chunks text maxSize,
      u.length ≤ maxSize ∨ AdvOversized text maxSize u := by
  have hinit : AdvInv text maxSize ⟨[], []⟩ := by
    refine ⟨fun u hu => absurd hu (List.not_mem_nil u), Or.inl ?_⟩
    simp [pyStrip]
  have hfold : AdvInv text maxSize
      ((splitSents text).foldl (addSentenceAdv maxSize) ⟨[], []⟩) :=
    foldl_inv_mem (addSentenceAdv maxSize) (AdvInv text maxSize) (splitSents text)
      (fun st s hsm hst => addSentenceAdv_inv text maxSize s hsm st hst)
      _ (fun _ hx => hx) _ hinit
  intro u hu
  refine flushChunks_all _ _ hfold.1 (fun _ => ?_) u hu
  rcases hfold.2 with hl | ⟨hexc, heq⟩
  · exact Or.inl hl
  · rw [heq]
    exact Or.inr hexc

/-! ### Sentence content preserved by the chunkers -/

/-- Characters that carry sentence content: everything except
sentence-terminator punctuation and whitespace.  The chunkers consume
separators (terminators, blank lines) and insert `'。'` and `'\n'`, all
outside this class. -/
def keepChar (c : Char) : Bool := !(isTermChar c || isPyWs c)

/-- The sentence content of a string: its `keepChar` characters in
order. -/
def contentOf (s : List Char) : List Char := s.filter keepChar

theorem contentOf_append (a b : List Char) :
    contentOf (a ++ b) = contentOf a ++ contentOf b := by
  simp [contentOf]

theorem contentOf_cons (c : Char) (t : List Char) :
    contentOf (c :: t) = if keepChar c then c :: contentOf t else contentOf t := by
  simp [contentOf, List.filter_cons]

theorem contentOf_dropWhile_ws (l : List Char) :
    contentOf (l.dropWhile isPyWs) = contentOf l := by
  induction l with
  | nil => rfl
  | cons c t ih =>
    by_cases hc : isPyWs c
    · have hk : keepChar c = false := by simp [keepChar, hc]
      simp [List.dropWhile_cons, hc, contentOf_cons, hk, ih]
    · simp [List.dropWhile_cons, hc]

theorem contentOf_reverse (l : List Char) :
    contentOf l.reverse = (contentOf l).reverse := by
  simp [contentOf, List.filter_reverse]

theorem contentOf_pyStrip (s : List Char) :
    contentOf (pyStrip s) = contentOf s := by
  calc contentOf (((s.dropWhile isPyWs).reverse.dropWhile isPyWs).reverse)
      = (contentOf ((s.dropWhile isPyWs).reverse.dropWhile isPyWs)).reverse :=
        contentOf_reverse _
    _ = (contentOf ((s.dropWhile isPyWs).reverse)).reverse := by
        rw [contentOf_dropWhile_ws]
    _ = ((contentOf (s.dropWhile isPyWs)).reverse).reverse := by
        rw [contentOf_reverse]
    _ = contentOf (s.dropWhile isPyWs) := List.reverse_reverse _
    _ = contentOf s := contentOf_dropWhile_ws _

theorem contentOf_addTerm (y : List Char) :
    contentOf (addTerm y) = contentOf y := by
  unfold addTerm
  by_cases h : endsWithTerm y
  · rw [if_pos h]
  · rw [if_neg h, contentOf_append]
    have : contentOf ['。'] = [] := by decide
    rw [this, List.append_nil]

theorem contentOf_nil : contentOf [] = [] := rfl

theorem splitParas_pair (rest : List Char) :
    splitParas ('\n' :: '\n' :: rest) = [] :: splitParas rest := rfl

theorem splitParas_cons_cons (c : Char) (rest : List Char)
    (h : ∀ r2 : List Char, c = '\n' → rest = '\n' :: r2 → False)
    (hd : List Char) (tl : List (List Char)) (hs : splitParas rest = hd :: tl) :
    splitParas (c :: rest) = (c :: hd) :: tl := by
  rw [splitParas.eq_def]
  split
  · simp_all
  · rename_i heq
    injection heq with h1 h2
    exact (h _ h1 h2).elim
  · rename_i c2 rest2 hne2 heq
    injection heq with e1 e2
    subst e1
    subst e2
    rw [hs]

theorem splitParas_ne_nil (l : List Char) : splitParas l ≠ [] := by
  induction l using splitParas.induct with
  | case1 => simp [splitParas]
  | case2 rest ih => rw [splitParas_pair]; simp
  | case3 c rest h hnil ih => exact absurd hnil ih
  | case4 c rest h hd tl hs ih =>
    rw [splitParas_cons_cons c rest h hd tl hs]
    simp

theorem contentOf_splitParas (l : List Char) :
    ((splitParas l).map contentOf).flatten = contentOf l := by
  induction l using splitParas.induct with
  | case1 => simp [splitParas, contentOf]
  | case2 rest ih =>
    have hk : keepChar '\n' = false := by decide
    rw [splitParas_pair]
    simp only [List.map_cons, List.flatten_cons, contentOf_nil, List.nil_append, ih]
    rw [contentOf_cons]
    simp only [hk, Bool.false_eq_true, if_false]
    rw [contentOf_cons]
    simp [hk]
  | case3 c rest h hnil ih => exact absurd hnil (splitParas_ne_nil rest)
  | case4 c rest h hd tl hs ih =>
    rw [splitParas_cons_cons c rest h hd tl hs]
    rw [hs] at ih
    simp only [List.map_cons, List.flatten_cons] at ih ⊢
    rw [contentOf_cons, contentOf_cons]
    by_cases hk : keepChar c
    · simp only [hk, if_true, List.cons_append]
      rw [← ih]
    · simp only [hk, Bool.false_eq_true, if_false]
      rw [← ih]

theorem splitSents_ne_nil (l : List Char) : splitSents l ≠ [] := by
  induction l with
  | nil => simp [splitSents]
  | cons c t ih =>
    rw [splitSents]
    by_cases hc : isTermChar c
    · simp [hc]
    · simp only [hc, Bool.false_eq_true, if_false]
      cases hs : splitSents t <;> simp

theorem contentOf_splitSents (l : List Char) :
    ((splitSents l).map contentOf).flatten = contentOf l := by
  induction l with
  | nil => simp [splitSents, contentOf]
  | cons c t ih =>
    rw [splitSents]
    by_cases hc : isTermChar c
    · have hk : keepChar c = false := by simp [keepChar, hc]
      simp only [hc, if_true, List.map_cons, List.flatten_cons, contentOf_nil,
        List.nil_append, ih]
      rw [contentOf_cons]
      simp [hk]
    · cases hs : splitSents t with
      | nil => exact absurd hs (splitSents_ne_nil t)
      | cons hd tl =>
        rw [hs] at ih
        simp only [hc, Bool.false_eq_true, if_false, List.map_cons,
          List.flatten_cons] at ih ⊢
        rw [contentOf_cons, contentOf_cons]
        by_cases hk : keepChar c
        · simp only [hk, if_true, List.cons_append]
          rw [← ih]
        · simp only [hk, Bool.false_eq_true, if_false]
          rw [← ih]

/-- The sentence content carried by a chunker state: content of the
finished chunks plus content of the accumulator. -/
def stContent (st : ChunkState) : List Char :=
  contentOf st.chunks.flatten ++ contentOf st.current

theorem contentOf_flushChunks (st : ChunkState) :
    contentOf (flushChunks st).flatten = stContent st := by
  unfold flushChunks stContent
  by_cases hE : st.current.isEmpty
  · rw [if_pos hE]
    have hcur : st.current = [] := List.isEmpty_iff.mp hE
    rw [hcur, contentOf_nil, List.append_nil]
  · rw [if_neg hE, List.flatten_append]
    simp only [List.flatten_cons, List.flatten_nil, List.append_nil]
    rw [contentOf_append, contentOf_pyStrip]

theorem addSentenceSmart_content (maxSize : Nat) (st : ChunkState) (s0 : List Char) :
    stContent (addSentenceSmart maxSize st s0) = stContent st ++ contentOf s0 := by
  by_cases h1 : (pyStrip s0).isEmpty
  · rw [addSentenceSmart_empty _ _ _ h1]
    have h0 : contentOf s0 = [] := by
      rw [← contentOf_pyStrip, List.isEmpty_iff.mp h1, contentOf_nil]
    rw [h0, List.append_nil]
  · have h1f : (pyStrip s0).isEmpty = false := by simpa using h1
    by_cases h2 : st.current.length + (addTerm (pyStrip s0)).length < maxSize
    · rw [addSentenceSmart_fits _ _ _ h1f h2]
      show contentOf st.chunks.flatten ++ contentOf (st.current ++ addTerm (pyStrip s0)) =
        stContent st ++ contentOf s0
      rw [contentOf_append, contentOf_addTerm, contentOf_pyStrip]
      unfold stContent
      rw [List.append_assoc]
    · rw [addSentenceSmart_flush _ _ _ h1f h2]
      show contentOf (flushChunks st).flatten ++ contentOf (addTerm (pyStrip s0)) =
        stContent st ++ contentOf s0
      rw [contentOf_flushChunks, contentOf_addTerm, contentOf_pyStrip]

theorem foldl_addSentenceSmart_content (maxSize : Nat) :
    ∀ (l : List (List Char)) (st : ChunkState),
    stContent (l.foldl (addSentenceSmart maxSize) st) =
      stContent st ++ (l.map contentOf).flatten := by
  intro l
  induction l with
  | nil => intro st; simp
  | cons a l ih =>
    intro st
    simp only [List.foldl_cons, List.map_cons, List.flatten_cons]
    rw [ih, addSentenceSmart_content, List.append_assoc]

theorem addParagraphSmart_content (maxSize : Nat) (st : ChunkState) (p0 : List Char) :
    stContent (addParagraphSmart maxSize st p0) = stContent st ++ contentOf p0 := by
  by_cases h1 : (pyStrip p0).isEmpty
  · rw [addParagraphSmart_empty _ _ _ h1]
    have h0 : contentOf p0 = [] := by
      rw [← contentOf_pyStrip, List.isEmpty_iff.mp h1, contentOf_nil]
    rw [h0, List.append_nil]
  · have h1f : (pyStrip p0).isEmpty = false := by simpa using h1
    by_cases h2 : maxSize < (pyStrip p0).length
    · rw [addParagraphSmart_big _ _ _ h1f h2]
      rw [foldl_addSentenceSmart_content, contentOf_splitSents, contentOf_pyStrip]
    · by_cases h3 : st.current.length + (pyStrip p0).length < maxSize
      · rw [addParagraphSmart_append _ _ _ h1f h2 h3]
        show contentOf st.chunks.flatten ++
            contentOf (st.current ++ pyStrip p0 ++ ['\n']) =
          stContent st ++ contentOf p0
        rw [contentOf_append, contentOf_append, contentOf_pyStrip]
        have hn : contentOf ['\n'] = [] := by decide
        rw [hn, List.append_nil]
        unfold stContent
        rw [List.append_assoc]
      · rw [addParagraphSmart_flush _ _ _ h1f h2 h3]
        show contentOf (flushChunks st).flatten ++ contentOf (pyStrip p0 ++ ['\n']) =
          stContent st ++ contentOf p0
        rw [contentOf_flushChunks, contentOf_append, contentOf_pyStrip]
        have hn : contentOf ['\n'] = [] := by decide
        rw [hn, List.append_nil]

theorem foldl_addParagraphSmart_content (maxSize : Nat) :
    ∀ (l : List (List Char)) (st : ChunkState),
    stContent (l.foldl (addParagraphSmart maxSize) st) =
      stContent st ++ (l.map contentOf).flatten := by
  intro l
  induction l with
  | nil => intro st; simp
  | cons a l ih =>
    intro st
    simp only [List.foldl_cons, List.map_cons, List.flatten_cons]
    rw [ih, addParagraphSmart_content, List.append_assoc]

theorem split_text_smart_content (text : List Char) (maxSize : Nat) :
    contentOf (split_text_smart text maxSize).flatten = contentOf text := by
  unfold split_text_smart
  rw [contentOf_flushChunks, foldl_addParagraphSmart_content, contentOf_splitParas]
  show stContent ⟨[], []⟩ ++ contentOf text = contentOf text
  simp [stContent, contentOf_nil]

theorem addSentenceAdv_content (maxSize : Nat) (st : ChunkState) (s0 : List Char) :
    stContent (addSentenceAdv maxSize st s0) = stContent st ++ contentOf s0 := by
  by_cases h1 : (pyStrip s0).isEmpty
  · rw [addSentenceAdv_empty _ _ _ h1]
    have h0 : contentOf s0 = [] := by
      rw [← contentOf_pyStrip, List.isEmpty_iff.mp h1, contentOf_nil]
    rw [h0, List.append_nil]
  · have h1f : (pyStrip s0).isEmpty = false := by simpa using h1
    by_cases h2 : st.current.length + (pyStrip s0).length < maxSize
    · rw [addSentenceAdv_fits _ _ _ h1f h2]
      show contentOf st.chunks.flatten ++
          contentOf (st.current ++ pyStrip s0 ++ ['。']) =
        stContent st ++ contentOf s0
      rw [contentOf_append, contentOf_append, contentOf_pyStrip]
      have hn : contentOf ['。'] = [] := by decide
      rw [hn, List.append_nil]
      unfold stContent
      rw [List.append_assoc]
    · rw [addSentenceAdv_flush _ _ _ h1f h2]
      show contentOf (flushChunks st).flatten ++ contentOf (pyStrip s0 ++ ['。']) =
        stContent st ++ contentOf s0
      rw [contentOf_flushChunks, contentOf_append, contentOf_pyStrip]
      have hn : contentOf ['。'] = [] := by decide
      rw [hn, List.append_nil]

theorem foldl_addSentenceAdv_content (maxSize : Nat) :
    ∀ (l : List (List Char)) (st : ChunkState),
    stContent (l.foldl (addSentenceAdv maxSize) st) =
      stContent st ++ (l.map contentOf).flatten := by
  intro l
  induction l with
  | nil => intro st; simp
  | cons a l ih =>
    intro st
    simp only [List.foldl_cons, List.map_cons, List.flatten_cons]
    rw [ih, addSentenceAdv_content, List.append_assoc]

theorem split_text_into_chunks_content (text : List Char) (maxSize : Nat) :
    contentOf (split_text_into_chunks text maxSize).flatten = contentOf text := by
  unfold split_text_into_chunks
  rw [contentOf_flushChunks, foldl_addSentenceAdv_content, contentOf_splitSents]
  show stContent ⟨[], []⟩ ++ contentOf text = contentOf text
  simp [stContent, contentOf_nil]

/-! ### Catalog ordering -/

theorem sortedNames_sorted (dir : DirListing) :
    (sortedNames dir).Pairwise (fun a b => keyD a ≤ keyD b) := by
  unfold sortedNames
  have h := @List.sorted_mergeSort FileName (fun a b => decide (keyD a ≤ keyD b))
    (fun a b c h1 h2 => by
      simp only [decide_eq_true_eq] at h1 h2 ⊢
      omega)
    (fun a b => by
      simpa using Nat.le_total (keyD a) (keyD b))
    (discoveredNames dir)
  refine List.Pairwise.imp ?_ h
  intro a b hab
  simpa using hab

/-! ### Per-chunk classification helpers -/

theorem skipEntry_of_not_accepts (dir : DirListing) (refP : WavParams)
    (name : FileName) (h : acceptsChunk dir refP name = false) :
    ∃ r, skipEntryOf dir refP name = some (name, r) := by
  unfold acceptsChunk at h
  unfold skipEntryOf
  cases hl : List.lookup name dir with
  | none => exact ⟨SkipReason.corruptFile, rfl⟩
  | some cd =>
    cases cd with
    | corrupt => exact ⟨SkipReason.corruptFile, rfl⟩
    | ok p pcm =>
      rw [hl] at h
      simp only [decide_eq_false_iff_not] at h
      refine ⟨SkipReason.formatMismatch, ?_⟩
      simp [h]

theorem mismatch_of_nchannels (dir : DirListing) (refP : WavParams)
    (name : FileName) (p : WavParams) (pcm : List Nat)
    (hl : List.lookup name dir = some (ChunkData.ok p pcm))
    (hch : p.nchannels ≠ refP.nchannels) :
    acceptsChunk dir refP name = false ∧
    skipEntryOf dir refP name = some (name, SkipReason.formatMismatch) := by
  have hne : params4 p ≠ params4 refP := by
    intro hcon
    exact hch (congrArg Prod.fst hcon)
  constructor
  · unfold acceptsChunk
    simp [hl, hne]
  · unfold skipEntryOf
    simp [hl, hne]

/-! ### Concrete inputs used by the claims -/

/-- Mono 16-bit 22050 Hz PCM chunk parameters with `nf` frames (the
format of the end-to-end example in the specification). -/
def specParams (nf : Nat) : WavParams :=
  ⟨1, 2, 22050, nf, "NONE", "not compressed"⟩

/-- Three same-format chunk files of 100, 150 and 200 frames, the
specification's end-to-end example input. -/
def c1dir : DirListing :=
  [("chunk_0.wav".toList, ChunkData.ok (specParams 100) (List.replicate 200 0)),
   ("chunk_1.wav".toList, ChunkData.ok (specParams 150) (List.replicate 300 0)),
   ("chunk_2.wav".toList, ChunkData.ok (specParams 200) (List.replicate 400 0))]

/-- A mono reference chunk followed by a stereo (2-channel) chunk. -/
def c2dir : DirListing :=
  [("chunk_0.wav".toList, ChunkData.ok (specParams 5) (List.replicate 10 1)),
   ("chunk_1.wav".toList,
    ChunkData.ok ⟨2, 2, 22050, 5, "NONE", "not compressed"⟩ (List.replicate 20 2))]

/-- A corrupt first chunk followed by a perfectly valid chunk. -/
def c3dir : DirListing :=
  [("chunk_0.wav".toList, ChunkData.corrupt),
   ("chunk_1.wav".toList, ChunkData.ok (specParams 1) [7, 7])]

/-- The three filenames of the specification's ordering example, listed
in lexicographic order (the order a naive string sort would keep). -/
def c4dir : DirListing :=
  [("chunk_0.wav".toList, ChunkData.corrupt),
   ("chunk_10.wav".toList, ChunkData.corrupt),
   ("chunk_2.wav".toList, ChunkData.corrupt)]

/-- A directory that exists but holds no `chunk_*.wav` file. -/
def c7dir : DirListing := [("readme.txt".toList, ChunkData.corrupt)]

/-- A single valid chunk. -/
def c8dir : DirListing :=
  [("chunk_0.wav".toList, ChunkData.ok (specParams 100) (List.replicate 200 7))]

/-- Chunk names for the batching witness. -/
def c10dir : DirListing :=
  [("chunk_0.wav".toList, ChunkData.ok (specParams 2) [1, 2, 3, 4]),
   ("chunk_1.wav".toList, ChunkData.corrupt),
   ("chunk_2.wav".toList, ChunkData.ok (specParams 1) [5, 6])]

/-- The names of `c10dir` in catalog order. -/
def c10names : List FileName :=
  ["chunk_0.wav".toList, "chunk_1.wav".toList, "chunk_2.wav".toList]

/-- A valid first chunk followed by a corrupt second chunk. -/
def c3bdir : DirListing :=
  [("chunk_0.wav".toList, ChunkData.ok (specParams 1) [7, 7]),
   ("chunk_1.wav".toList, ChunkData.corrupt)]

theorem pydubMergeLoop_eq (chunks : List (List Nat)) (gapMs rate width : Nat) :
    pydubMergeLoop chunks gapMs rate width =
      (chunks.map (fun c => c ++ silentGap gapMs rate width)).flatten := by
  unfold pydubMergeLoop
  suffices h : ∀ (l : List (List Nat)) (acc : List Nat),
      l.foldl (fun a c => a ++ c ++ silentGap gapMs rate width) acc =
        acc ++ (l.map (fun c => c ++ silentGap gapMs rate width)).flatten by
    simpa using h chunks []
  intro l
  induction l with
  | nil => intro acc; simp
  | cons a l ih =>
    intro acc
    simp only [List.foldl_cons, List.map_cons, List.flatten_cons]
    rw [ih]
    simp [List.append_assoc]

/-! ### The claims -/

set_option maxRecDepth 1000000 in
unseal List.merge List.mergeSort in
/-- C1: evaluating `merge_audio_fixed` at the specification's end-to-end
input — three chunks of identical AudioFormat (mono, 2-byte samples,
22050 Hz, PCM) with frame counts 100, 150 and 200 — shows the code's
`getparams()[:4]` comparison (which includes `nframes`) skipping the
second and third chunks as format mismatches: `total_frames` is 100
rather than the claimed `f1+f2+f3 = 450`, one chunk is merged, two are
skipped, and only 44 + 200 = 244 bytes are written. -/
theorem claim_C1 :
    (merge_audio_fixed (some c1dir)).toOption.map (fun o => o.totalFrames) =
      some 100 ∧
    (merge_audio_fixed (some c1dir)).toOption.map (fun o => o.mergedCount) =
      some 1 ∧
    (merge_audio_fixed (some c1dir)).toOption.map (fun o => o.skipped) =
      some [("chunk_1.wav".toList, SkipReason.formatMismatch),
            ("chunk_2.wav".toList, SkipReason.formatMismatch)] ∧
    (merge_audio_fixed (some c1dir)).toOption.map (fun o => o.bytes.length) =
      some 244 := by
  exact ⟨by decide, by decide, by decide, by decide⟩

set_option maxRecDepth 400000 in
unseal List.merge List.mergeSort in
/-- C4: the catalog orders chunk files by the integer value parsed from
the filename: the discovery output is a permutation of the matched
files, pairwise sorted by the numeric key; in particular the files
`chunk_0.wav, chunk_2.wav, chunk_10.wav` (listed lexicographically in
the directory) are returned exactly in numeric order. -/
theorem claim_C4 :
    (∀ dir : DirListing,
      (sortedNames dir).Perm (discoveredNames dir) ∧
      (sortedNames dir).Pairwise (fun a b => keyD a ≤ keyD b)) ∧
    sortedNames c4dir =
      ["chunk_0.wav".toList, "chunk_2.wav".toList, "chunk_10.wav".toList] := by
  constructor
  · intro dir
    exact ⟨sortedNames_perm dir, sortedNames_sorted dir⟩
  · decide

/-- C5: every unit produced by either chunker respects
`length ≤ max_chunk_size`, except a unit that is a single stripped
sentence fragment (terminator re-appended exactly as the source emits
it, verbatim, never truncated) which alone exceeds the limit. -/
theorem claim_C5 (text : List Char) (maxSize : Nat) :
    (∀ u ∈ split_text_smart text maxSize,
      u.length ≤ maxSize ∨ SmartOversized text maxSize u) ∧
    (∀ u ∈ split_text_into_chunks text maxSize,
      u.length ≤ maxSize ∨ AdvOversized text maxSize u) :=
  ⟨split_text_smart_sizes text maxSize, split_text_into_chunks_sizes text maxSize⟩

/-- Witness for C5 at a concrete input: `"ab"` with limit 10 yields the
unit `"ab"` from `split_text_smart` and `"ab。"` from
`split_text_into_chunks`, both within the bound. -/
theorem claim_C5_witness :
    ("ab".toList ∈ split_text_smart "ab".toList 10 ∧
      ("ab".toList.length ≤ 10 ∨ SmartOversized "ab".toList 10 "ab".toList)) ∧
    ("ab。".toList ∈ split_text_into_chunks "ab".toList 10 ∧
      ("ab。".toList.length ≤ 10 ∨ AdvOversized "ab".toList 10 "ab。".toList)) := by
  refine ⟨⟨by decide, ?_⟩, ⟨by decide, ?_⟩⟩
  · exact (claim_C5 "ab".toList 10).1 _ (by decide)
  · exact (claim_C5 "ab".toList 10).2 _ (by decide)

/-- C6: concatenating all units of either chunker preserves the
original text's sentence content — the subsequence of characters that
are neither sentence-terminator punctuation nor whitespace — with
nothing dropped or reordered. -/
theorem claim_C6 (text : List Char) (maxSize : Nat) :
    contentOf (split_text_smart text maxSize).flatten = contentOf text ∧
    contentOf (split_text_into_chunks text maxSize).flatten = contentOf text :=
  ⟨split_text_smart_content text maxSize, split_text_into_chunks_content text maxSize⟩

/-- C7: when the chunk directory exists but contains no file matching
`chunk_*.wav`, the merge stops with the empty-input error and never
produces an output (in the code the error return precedes the
`open(output_file, 'wb')`, so no byte of the output path is written). -/
theorem claim_C7 (listing : DirListing)
    (h : (listing.map Prod.fst).filter matchesChunkPattern = []) :
    merge_audio_fixed (some listing) = Except.error MergeError.noChunks ∧
    ∀ out, merge_audio_fixed (some listing) ≠ Except.ok out := by
  have hd : discoveredNames listing = [] := h
  have h1 : merge_audio_fixed (some listing) = Except.error MergeError.noChunks := by
    simp [merge_audio_fixed, hd]
  refine ⟨h1, fun out hcon => ?_⟩
  rw [h1] at hcon
  exact absurd hcon (by simp)

/-- Witness for C7: a directory holding only `readme.txt`. -/
theorem claim_C7_witness :
    ((c7dir.map Prod.fst).filter matchesChunkPattern = []) ∧
    merge_audio_fixed (some c7dir) = Except.error MergeError.noChunks :=
  ⟨by decide, (claim_C7 c7dir (by decide)).1⟩

/-- C9: the bytes produced by `merge_wav_files` do not depend on the
output path — merging the same directory into two different output
paths yields byte-identical file contents (and, the function being
pure, merging the same ordered chunk set twice is deterministic). -/
theorem claim_C9 (dir : DirListing) (o1 o2 : FileName) :
    (merge_wav_files dir o1).toOption.map (fun r => r.bytes) =
    (merge_wav_files dir o2).toOption.map (fun r => r.bytes) := by
  unfold merge_wav_files
  by_cases hE : (discoveredNames dir).isEmpty
  · simp [hE, Except.toOption]
  · by_cases hA : (discoveredNames dir).all (fun n => (chunkIndex n).isSome)
    · cases hR : refParamsOf dir with
      | none => simp [hE, hA, hR, Except.toOption]
      | some refP => simp [hE, hA, hR, Except.toOption]
    · simp [hE, hA, Except.toOption]

/-- C10: partitioning the chunk list into batches is output-transparent:
for every directory, reference format, start state, chunk list and
positive batch size, the batched outer loop (`range(total_batches)` with
`files[start_idx:end_idx]` slices) produces exactly the state of the
plain one-by-one fold — same output bytes, same `total_frames`, same
skip list. -/
theorem claim_C10 (dir : DirListing) (refP : WavParams) (b : Nat) (hb : 0 < b)
    (names : List FileName) (st : LoopState) :
    processBatches b (processChunk dir refP) names st =
      names.foldl (processChunk dir refP) st :=
  processBatches_eq_foldl b hb _ names st

/-- Witness for C10: batch size 2 over three concrete chunk names. -/
theorem claim_C10_witness :
    0 < 2 ∧
    processBatches 2 (processChunk c10dir (specParams 2)) c10names ⟨[], 0, 0, []⟩ =
      c10names.foldl (processChunk c10dir (specParams 2)) ⟨[], 0, 0, []⟩ :=
  ⟨by decide, claim_C10 c10dir (specParams 2) 2 (by decide) c10names ⟨[], 0, 0, []⟩⟩

/-- C2: in every completed merge run the `skipped` accumulator is
exhaustive — every chunk of the catalog is either accepted or appears in
`skipped` with a reason — `total_frames` sums exactly the accepted
chunks' frame counts, and a chunk whose channel count differs from the
reference format is recorded as a format mismatch and contributes
nothing to `total_frames`, while the merge still runs to completion. -/
theorem claim_C2 (dir : DirListing) (refP : WavParams)
    (h1 : refParamsOf dir = some refP)
    (h2 : (discoveredNames dir).all (fun n => (chunkIndex n).isSome) = true) :
    ∃ out, merge_audio_fixed (some dir) = Except.ok out ∧
      out.skipped = (sortedNames dir).filterMap (skipEntryOf dir refP) ∧
      (∀ name ∈ sortedNames dir, acceptsChunk dir refP name = true ∨
        ∃ r, (name, r) ∈ out.skipped) ∧
      out.totalFrames =
        (((sortedNames dir).filter (acceptsChunk dir refP)).map (nframesOf dir)).sum ∧
      (∀ name ∈ sortedNames dir, ∀ p pcm,
        List.lookup name dir = some (ChunkData.ok p pcm) →
        p.nchannels ≠ refP.nchannels →
        (name, SkipReason.formatMismatch) ∈ out.skipped ∧
          acceptsChunk dir refP name = false) := by
  refine ⟨_, merge_audio_fixed_ok dir refP h1 h2, rfl, ?_, rfl, ?_⟩
  · intro name hname
    by_cases ha : acceptsChunk dir refP name
    · exact Or.inl ha
    · right
      have haf : acceptsChunk dir refP name = false := by simpa using ha
      obtain ⟨r, hr⟩ := skipEntry_of_not_accepts dir refP name haf
      exact ⟨r, List.mem_filterMap.mpr ⟨name, hname, hr⟩⟩
  · intro name hname p pcm hl hch
    obtain ⟨haf, hse⟩ := mismatch_of_nchannels dir refP name p pcm hl hch
    exact ⟨List.mem_filterMap.mpr ⟨name, hname, hse⟩, haf⟩

set_option maxRecDepth 400000 in
unseal List.merge List.mergeSort in
/-- Witness for C2: a stereo chunk behind a mono reference chunk is
recorded as a format mismatch while the merge completes. -/
theorem claim_C2_witness :
    ∃ out, merge_audio_fixed (some c2dir) = Except.ok out ∧
      ("chunk_1.wav".toList, SkipReason.formatMismatch) ∈ out.skipped := by
  obtain ⟨out, hok, hskip, hexh, htot, hch⟩ :=
    claim_C2 c2dir (specParams 5) (by decide) (by decide)
  refine ⟨out, hok, ?_⟩
  exact (hch "chunk_1.wav".toList (by decide)
    ⟨2, 2, 22050, 5, "NONE", "not compressed"⟩ (List.replicate 20 2)
    (by decide) (by decide)).1

set_option maxRecDepth 400000 in
unseal List.merge List.mergeSort in
/-- Counterexample to C3 as stated: in `c3dir` the first chunk fails to
parse while the second chunk is perfectly valid, yet the whole merge
aborts with an error (the first chunk's `wave.open` happens outside the
per-chunk `try`), instead of recording the bad chunk and continuing. -/
theorem claim_C3_counterexample :
    merge_audio_fixed (some c3dir) = Except.error MergeError.firstChunkFailed ∧
    List.lookup "chunk_1.wav".toList c3dir =
      some (ChunkData.ok (specParams 1) [7, 7]) := by
  exact ⟨rfl, by decide⟩

/-- C3 (amended): the merge completes exactly when some chunk file is
discovered, every discovered filename parses to a numeric index, and the
first chunk in catalog order opens and parses; a chunk other than the
first that fails to open or parse is recorded in `skipped` as corrupt
while the merge still runs to completion. -/
theorem claim_C3 (dir : DirListing) :
    ((∃ out, merge_audio_fixed (some dir) = Except.ok out) ↔
      ((discoveredNames dir).isEmpty = false ∧
       (discoveredNames dir).all (fun n => (chunkIndex n).isSome) = true ∧
       (refParamsOf dir).isSome = true)) ∧
    (∀ refP, refParamsOf dir = some refP →
      (discoveredNames dir).all (fun n => (chunkIndex n).isSome) = true →
      ∃ out, merge_audio_fixed (some dir) = Except.ok out ∧
        ∀ name ∈ sortedNames dir,
          List.lookup name dir = some ChunkData.corrupt →
          (name, SkipReason.corruptFile) ∈ out.skipped) := by
  constructor
  · constructor
    · rintro ⟨out, hout⟩
      by_cases hE : (discoveredNames dir).isEmpty
      · exfalso
        simp [merge_audio_fixed, hE] at hout
      · by_cases hA : (discoveredNames dir).all (fun n => (chunkIndex n).isSome)
        · cases hR : refParamsOf dir with
          | none =>
            exfalso
            simp [merge_audio_fixed, hE, hA, hR] at hout
          | some refP =>
            exact ⟨by simpa using hE, hA, by simp [hR]⟩
        · exfalso
          simp [merge_audio_fixed, hE, hA] at hout
    · rintro ⟨hE, hA, hR⟩
      obtain ⟨refP, hRP⟩ := Option.isSome_iff_exists.mp hR
      exact ⟨_, merge_audio_fixed_ok dir refP hRP hA⟩
  · intro refP hRP hA
    refine ⟨_, merge_audio_fixed_ok dir refP hRP hA, ?_⟩
    intro name hname hl
    have hse : skipEntryOf dir refP name = some (name, SkipReason.corruptFile) := by
      simp [skipEntryOf, hl]
    exact List.mem_filterMap.mpr ⟨name, hname, hse⟩

set_option maxRecDepth 400000 in
unseal List.merge List.mergeSort in
/-- Witness for C3 (amended): with a valid first chunk and a corrupt
second chunk the merge completes and the corrupt chunk is recorded. -/
theorem claim_C3_witness :
    ∃ out, merge_audio_fixed (some c3bdir) = Except.ok out ∧
      ("chunk_1.wav".toList, SkipReason.corruptFile) ∈ out.skipped := by
  obtain ⟨out, hok, hcor⟩ :=
    (claim_C3 c3bdir).2 (specParams 1) (by decide) (by decide)
  exact ⟨out, hok, hcor "chunk_1.wav".toList (by decide) (by decide)⟩

/-- Counterexample to C8 as stated: the pydub merge path of
`txt_to_wav_large_file.py`, with its default (and only) behaviour,
interleaves a non-empty 300 ms silent gap after every chunk — the output
is not the plain concatenation of the chunks, although the caller never
requested a gap. -/
theorem claim_C8_counterexample :
    pydubMergeLoop [[1], [2]] 300 22050 2 =
      [1] ++ silentGap 300 22050 2 ++ ([2] ++ silentGap 300 22050 2) ∧
    silentGap 300 22050 2 ≠ [] ∧
    pydubMergeLoop [[1], [2]] 300 22050 2 ≠ [1] ++ [2] := by
  have hgap : (silentGap 300 22050 2).length = 13230 := by
    rw [silentGap, List.length_replicate]
  have heq : pydubMergeLoop [[1], [2]] 300 22050 2 =
      [1] ++ silentGap 300 22050 2 ++ ([2] ++ silentGap 300 22050 2) := by
    simp [pydubMergeLoop, List.append_assoc]
  refine ⟨heq, ?_, ?_⟩
  · intro hcon
    rw [hcon] at hgap
    simp at hgap
  · intro hcon
    rw [heq] at hcon
    have h3 := congrArg List.length hcon
    simp only [List.length_append, hgap, List.length_cons, List.length_nil] at h3
    omega

/-- C8 (amended): the dedicated merge tool writes the accepted chunks'
PCM bytes as a plain concatenation in catalog order — no inter-chunk
silence — while the pydub merge loops of the TTS scripts unconditionally
append a fixed silent gap after every chunk, with no caller option to
disable it. -/
theorem claim_C8 :
    (∀ (dir : DirListing) (refP : WavParams),
      refParamsOf dir = some refP →
      (discoveredNames dir).all (fun n => (chunkIndex n).isSome) = true →
      ∃ out, merge_audio_fixed (some dir) = Except.ok out ∧
        out.bytes =
          wavHeader refP
              (36 + ((((sortedNames dir).filter (acceptsChunk dir refP)).map
                (pcmOf dir)).flatten).length)
              ((((sortedNames dir).filter (acceptsChunk dir refP)).map
                (pcmOf dir)).flatten).length ++
            (((sortedNames dir).filter (acceptsChunk dir refP)).map
              (pcmOf dir)).flatten) ∧
    (∀ (chunks : List (List Nat)) (gapMs rate width : Nat),
      pydubMergeLoop chunks gapMs rate width =
        (chunks.map (fun c => c ++ silentGap gapMs rate width)).flatten) := by
  constructor
  · intro dir refP h1 h2
    exact ⟨_, merge_audio_fixed_ok dir refP h1 h2, rfl⟩
  · intro chunks gapMs rate width
    exact pydubMergeLoop_eq chunks gapMs rate width

set_option maxRecDepth 400000 in
unseal List.merge List.mergeSort in
/-- Witness for C8 (amended): one 200-byte chunk produces exactly the
backpatched header followed by those 200 bytes. -/
theorem claim_C8_witness :
    ∃ out, merge_audio_fixed (some c8dir) = Except.ok out ∧
      out.bytes = wavHeader (specParams 100) 236 200 ++ List.replicate 200 7 := by
  obtain ⟨out, hok, hbytes⟩ :=
    claim_C8.1 c8dir (specParams 100) (by decide) (by decide)
  refine ⟨out, hok, ?_⟩
  have hd : (((sortedNames c8dir).filter (acceptsChunk c8dir (specParams 100))).map
      (pcmOf c8dir)).flatten = List.replicate 200 7 := by decide
  rw [hbytes, hd]
  simp

end AudioMerge
